import Mathlib

/-!
Shallow embedding of ufo's CSV data-extractor backend
(`src/ufo/utils/dataextractor/DataExtractorCSVBackend.cc`) together with
theorems checking the natural-language specification of that backend.

Modelling decisions:

* A CSV file already decoded by `eckit::CSVParser` is modelled as a
  `List (List String)` (one inner list of cell texts per physical line).
* C++ `float` / `double` payload values are modelled exactly, as normalized
  rational numbers (`Q` below).  The inputs appearing in the specification
  (`1.5`, `2.25`, ...) are exactly representable in binary floating point, so
  no rounding behaviour is lost for the claims considered here.
* `eckit` exceptions are modelled as values of the error type `CsvError`;
  functions that can throw return `Except CsvError _`.
* Code called by the backend but not part of this repository's sources
  (`util::missingValue`, `ioda::convertV1PathToV2Path`, the numeric
  conversions of `eckit::Value`) is modelled from the specification; each such
  definition carries a doc comment saying so.
-/

namespace UfoCsv

/-! ### Exact rational numbers with kernel-computable normalization -/

/-- Fuel-driven Euclidean algorithm; `gcdAux m m n` computes `gcd m n`.
The fuel makes the recursion structural, so the kernel can evaluate it. -/
def gcdAux : Nat → Nat → Nat → Nat
  | 0, _, n => n
  | _ + 1, 0, n => n
  | fuel + 1, m + 1, n => gcdAux fuel (n % (m + 1)) (m + 1)

/-- Greatest common divisor (structural version of `Nat.gcd`). -/
def myGcd (m n : Nat) : Nat := gcdAux m m n

/-- Exact rational value of a `float` cell: numerator and denominator.
Values are only built through `mkQ`, which normalizes, so equality of payload
values is structural equality. -/
structure Q where
  num : Int
  den : Nat

/-- Normalizing constructor for `Q`. -/
def mkQ (n : Int) (d : Nat) : Q :=
  let g := myGcd n.natAbs d
  if g = 0 then ⟨0, 0⟩ else ⟨n / g, d / g⟩

/-- Embedding of an integer value into `Q` (the C++ `int` → `float`
element-wise conversion performed by `ConvertToEigenArrayVisitor`). -/
def qOfInt (v : Int) : Q := ⟨v, 1⟩

/-! ### Character-level string helpers (structural, kernel-computable) -/

/-- Embeds `eckit::StringTools::beginsWith`: `s` begins with `p`. -/
def beginsWith (s p : String) : Bool := p.data.isPrefixOf s.data

/-- Embeds `eckit::StringTools::endsWith`: `s` ends with `p`. -/
def endsWith (s p : String) : Bool := p.data.reverse.isPrefixOf s.data.reverse

/-- Splits a character list at every occurrence of the separator `sep`
(the semantics of `String.splitOn` for a one-character separator). -/
def splitAtSep (sep : Char) : List Char → List (List Char)
  | [] => [[]]
  | c :: cs =>
    if c = sep then [] :: splitAtSep sep cs
    else
      match splitAtSep sep cs with
      | [] => [[c]]
      | p :: ps => (c :: p) :: ps

/-! ### Numeric literal parsing

Modelled from the spec: the backend reads cells through `eckit::Value`
conversions (`as<long long>`, `as<double>`), whose lexical grammar ("standard
signed integer lexical form", "standard decimal/scientific lexical form") is
implemented outside this repository.  A cell that does not parse makes the
load fail with `MalformedNumericLiteral`. -/

/-- Value of a digit string; `none` if a character is not a decimal digit. -/
def digitsValAux : Nat → List Char → Option Nat
  | acc, [] => some acc
  | acc, c :: cs => if c.isDigit then digitsValAux (acc * 10 + (c.toNat - 48)) cs else none

/-- Value of a non-empty all-digit character list, else `none`. -/
def digitsVal : List Char → Option Nat
  | [] => none
  | cs => digitsValAux 0 cs

/-- Consumes an optional leading sign; returns (isNegative, rest). -/
def parseSign : List Char → Bool × List Char
  | '-' :: cs => (true, cs)
  | '+' :: cs => (false, cs)
  | cs => (false, cs)

/-- Modelled from the spec: parse of a standard signed integer literal. -/
def parseIntLit (s : String) : Option Int :=
  let sc := parseSign s.data
  match digitsVal sc.2 with
  | some n => some (if sc.1 then -(n : Int) else (n : Int))
  | none => none

/-- Splits at the first exponent marker `e`/`E`, if any. -/
def splitExp : List Char → List Char × Option (List Char)
  | [] => ([], none)
  | c :: cs =>
    if c = 'e' ∨ c = 'E' then ([], some cs)
    else
      let r := splitExp cs
      (c :: r.1, r.2)

/-- Splits at the first decimal point, if any. -/
def splitDot : List Char → List Char × Option (List Char)
  | [] => ([], none)
  | c :: cs =>
    if c = '.' then ([], some cs)
    else
      let r := splitDot cs
      (c :: r.1, r.2)

/-- Unsigned decimal mantissa (digits, optionally with one decimal point). -/
def parseMantissa (cs : List Char) : Option Q :=
  match splitDot cs with
  | (ip, none) =>
    match digitsVal ip with
    | some n => some ⟨(n : Int), 1⟩
    | none => none
  | (ip, some fp) =>
    if ip = [] ∧ fp = [] then none
    else
      match (if ip = [] then some 0 else digitsVal ip),
            (if fp = [] then some 0 else digitsVal fp) with
      | some i, some f => some (mkQ ((i : Int) * 10 ^ fp.length + (f : Int)) (10 ^ fp.length))
      | _, _ => none

/-- Applies a base-ten exponent to a mantissa. -/
def applyExp (m : Q) (eneg : Bool) (e : Nat) : Q :=
  if eneg then mkQ m.num (m.den * 10 ^ e) else mkQ (m.num * 10 ^ e) m.den

/-- Modelled from the spec: parse of a standard decimal/scientific
floating-point literal, as an exact rational. -/
def parseFloatLit (s : String) : Option Q :=
  let sc := parseSign s.data
  let me := splitExp sc.2
  match parseMantissa me.1 with
  | none => none
  | some m =>
    let sm : Q := if sc.1 then ⟨-m.num, m.den⟩ else m
    match me.2 with
    | none => some sm
    | some ecs =>
      let es := parseSign ecs
      match digitsVal es.2 with
      | none => none
      | some e => some (applyExp sm es.1 e)

/-- Truncating conversion of a wider integer into a 32-bit `int`
(the `static_cast<int>` applied to eckit's `long long` in the source). -/
def toInt32 (v : Int) : Int := (v + 2 ^ 31) % 2 ^ 32 - 2 ^ 31

/-! ### Constants of the backend -/

/-- Number of header rows in CSV files (`numHeaderRows` in the source). -/
def numHeaderRows : Nat := 2

/-- Representation of missing values in CSV files
(`missingValuePlaceholder` in the source). -/
def missingValuePlaceholder : String := "_"

/-- Modelled from the spec: the reserved out-of-band missing-value sentinel
returned by `util::missingValue` for `int` (not part of this repository). -/
def missingInt : Int := -2147483643

/-- Modelled from the spec: the reserved out-of-band missing-value sentinel
returned by `util::missingValue` for `float` (not part of this repository). -/
def missingFloat : Q := ⟨-999999999999, 1⟩

/-- Modelled from the spec: the reserved missing-value sentinel returned by
`util::missingValue` for `std::string` (not part of this repository). -/
def missingText : String := "*** MISSING ***"

/-! ### Errors and typed columns -/

/-- Kinds of `eckit` exception thrown by the backend, one per throw site of
the error taxonomy in the specification. -/
inductive CsvError where
  | insufficientData
  | headerColumnCountMismatch
  | noPayloadColumnFound
  | ambiguousPayloadColumn
  | unsupportedColumnType
  | payloadMustBeNumeric
  | dataRowColumnCountMismatch (line : Nat)
  | malformedNumericLiteral
  | noDataLoaded
  | notImplemented

/-- Embeds `DataExtractorInput::Coordinate`, the
`boost::variant<std::vector<int>, std::vector<float>, std::vector<std::string>>`
holding one typed column. -/
inductive Coordinate where
  | ints (values : List Int)
  | floats (values : List Q)
  | texts (values : List String)

/-- Length of a typed column. -/
def Coordinate.length : Coordinate → Nat
  | .ints vs => vs.length
  | .floats vs => vs.length
  | .texts vs => vs.length

/-- Embeds `AppendValueVisitor`: appends the decoded value of one cell to a
typed column, treating `"_"` as the missing-value placeholder; an unparseable
numeric cell raises `MalformedNumericLiteral`. -/
def appendValue (cell : String) : Coordinate → Except CsvError Coordinate
  | .ints values =>
    if cell = missingValuePlaceholder then .ok (.ints (values ++ [missingInt]))
    else
      match parseIntLit cell with
      | some v => .ok (.ints (values ++ [toInt32 v]))
      | none => .error .malformedNumericLiteral
  | .floats values =>
    if cell = missingValuePlaceholder then .ok (.floats (values ++ [missingFloat]))
    else
      match parseFloatLit cell with
      | some v => .ok (.floats (values ++ [v]))
      | none => .error .malformedNumericLiteral
  | .texts values =>
    .ok (.texts (values ++ [if cell = missingValuePlaceholder then missingText else cell]))

/-- Embeds `ConvertToEigenArrayVisitor`: converts a numeric column to the
dense payload array (`Eigen::ArrayXXf`, a rows × 1 single-precision array,
modelled as a list of exact values); integer values are converted
element-wise.  On a text column the visitor throws (`eckit::NotImplemented`;
the source marks this branch "Should never be called"). -/
def convertToEigenArray : Coordinate → Except CsvError (List Q)
  | .ints vs => .ok (vs.map qOfInt)
  | .floats vs => .ok vs
  | .texts _ => .error .notImplemented

/-! ### Payload column location -/

/-- Predicate of `findPayloadColumn`'s lambda `isInPayloadGroup`: a column
name is in the payload group when it begins with `payloadGroup + "/"` or ends
with `"@" + payloadGroup`. -/
def isInPayloadGroup (payloadGroup name : String) : Bool :=
  beginsWith name (payloadGroup ++ "/") || endsWith name ("@" ++ payloadGroup)

/-- Recursion implementing `std::find_if` followed by `std::any_of` over the
remaining names, as in the source's `findPayloadColumn`. -/
def findPayloadColumnFrom (payloadGroup : String) (idx : Nat) :
    List String → Except CsvError Nat
  | [] => .error .noPayloadColumnFound
  | name :: rest =>
    if isInPayloadGroup payloadGroup name then
      if rest.any (fun n => isInPayloadGroup payloadGroup n) then
        .error .ambiguousPayloadColumn
      else .ok idx
    else findPayloadColumnFrom payloadGroup (idx + 1) rest

/-- Embeds `findPayloadColumn`: index of the single column whose name is in
the payload group; `NoPayloadColumnFound` when no name matches,
`AmbiguousPayloadColumn` when several do. -/
def findPayloadColumn (columnNames : List String) (payloadGroup : String) :
    Except CsvError Nat :=
  findPayloadColumnFrom payloadGroup 0 columnNames

/-- Modelled from the spec: `ioda::convertV1PathToV2Path` (not part of this
repository) rewrites a name from the legacy `var@Group` convention to the
canonical `Group/var` convention, leaving other names unchanged. -/
def convertV1PathToV2Path (s : String) : String :=
  match splitAtSep '@' s.data with
  | [v, g] => String.mk (g ++ '/' :: v)
  | _ => s

/-! ### The assembled result -/

/-- Embeds `DataExtractorInput` (the fields used by this backend). -/
structure DataExtractorInput where
  payloadArray : List Q
  coordsVals : List (String × Coordinate)
  coord2DimMapping : List (String × Nat)
  dim2CoordMapping : List (List String)

/-- Insert-or-replace into an association list, the update semantics of
`std::unordered_map::operator[]` followed by assignment. -/
def insertAssoc {α : Type} (key : String) (value : α) :
    List (String × α) → List (String × α)
  | [] => [(key, value)]
  | (k, v) :: rest =>
    if k = key then (key, value) :: rest else (k, v) :: insertAssoc key value rest

/-- Appends a name to dimension 0's coordinate list
(`result.dim2CoordMapping[firstDim].push_back(...)`). -/
def pushDim0 (name : String) : List (List String) → List (List String)
  | [] => [[name]]
  | d :: ds => (d ++ [name]) :: ds

/-- Embeds one iteration of the column-allocation loop: allocates an empty
typed column from a type tag, rejecting a textual tag for the payload column
and an unrecognized tag for any column. -/
def allocateColumn (type : String) (isPayload : Bool) : Except CsvError Coordinate :=
  if type = "string" ∨ type = "datetime" then
    if isPayload then .error .payloadMustBeNumeric else .ok (.texts [])
  else if type = "int" ∨ type = "integer" then .ok (.ints [])
  else if type = "float" then .ok (.floats [])
  else .error .unsupportedColumnType

/-- Embeds the column-allocation loop over the type-tag row; `column` is the
index of the first tag in `types`. -/
def allocateColumns (payloadColumnIndex column : Nat) :
    List String → Except CsvError (List Coordinate)
  | [] => .ok []
  | t :: ts =>
    match allocateColumn t (column = payloadColumnIndex) with
    | .ok c =>
      match allocateColumns payloadColumnIndex (column + 1) ts with
      | .ok cs => .ok (c :: cs)
      | .error e => .error e
    | .error e => .error e

/-- Embeds the inner cell loop of one data row: appends each cell of the row
to the corresponding typed column. -/
def appendRow : List String → List Coordinate → Except CsvError (List Coordinate)
  | [], _ => .ok []
  | _, [] => .ok []
  | cell :: cells, col :: cols =>
    match appendValue cell col with
    | .ok col' =>
      match appendRow cells cols with
      | .ok cols' => .ok (col' :: cols')
      | .error e => .error e
    | .error e => .error e

/-- Embeds the data-row loop: skips a row consisting of a single empty cell,
rejects a row whose cell count differs from the column count (reporting the
1-based source line number), and otherwise appends every cell. -/
def processRows (numColumns : Nat) : Nat → List (List String) → List Coordinate →
    Except CsvError (List Coordinate)
  | _, [], cols => .ok cols
  | line, row :: rest, cols =>
    if row = [""] then processRows numColumns (line + 1) rest cols
    else if row.length ≠ numColumns then .error (.dataRowColumnCountMismatch line)
    else
      match appendRow row cols with
      | .ok cols' => processRows numColumns (line + 1) rest cols'
      | .error e => .error e

/-- Embeds the final loop storing loaded data into the result object: the
payload column is converted to the dense array, every other column is stored
into `coordsVals`, `coord2DimMapping` (dimension 0) and
`dim2CoordMapping[0]`. -/
def buildResult (payloadColumnIndex : Nat) :
    Nat → List String → List Coordinate → DataExtractorInput →
    Except CsvError DataExtractorInput
  | _, [], _, acc => .ok acc
  | _, _ :: _, [], acc => .ok acc
  | idx, name :: names, col :: cols, acc =>
    if idx = payloadColumnIndex then
      match convertToEigenArray col with
      | .ok arr =>
        buildResult payloadColumnIndex (idx + 1) names cols { acc with payloadArray := arr }
      | .error e => .error e
    else
      buildResult payloadColumnIndex (idx + 1) names cols
        { acc with
          coordsVals := insertAssoc name col acc.coordsVals,
          coord2DimMapping := insertAssoc name 0 acc.coord2DimMapping,
          dim2CoordMapping := pushDim0 name acc.dim2CoordMapping }

/-- State of the result object just before the storing loop: empty fields,
with `dim2CoordMapping` resized to one (empty) dimension entry. -/
def emptyInput : DataExtractorInput := ⟨[], [], [], [[]]⟩

/-- Embeds the body of `DataExtractorCSVBackend::loadData` after the
row-count guard, on the decoded grid split into the two header rows and the
data rows.  The step order mirrors the source: payload location, name
normalization, type-header count check, column allocation, data-row loop,
result assembly, empty-payload check. -/
def loadDataRows (nameHeader typeHeader : List String)
    (dataRows : List (List String)) (interpolatedArrayGroup : String) :
    Except CsvError DataExtractorInput :=
  let numColumns := nameHeader.length
  match findPayloadColumn nameHeader interpolatedArrayGroup with
  | .error e => .error e
  | .ok payloadColumnIndex =>
    let columnNames := nameHeader.map convertV1PathToV2Path
    if typeHeader.length ≠ numColumns then .error .headerColumnCountMismatch
    else
      match allocateColumns payloadColumnIndex 0 typeHeader with
      | .error e => .error e
      | .ok emptyColumns =>
        match processRows numColumns (numHeaderRows + 1) dataRows emptyColumns with
        | .error e => .error e
        | .ok columns =>
          match buildResult payloadColumnIndex 0 columnNames columns emptyInput with
          | .error e => .error e
          | .ok result =>
            if result.payloadArray.length = 0 then .error .noDataLoaded
            else .ok result

/-- Embeds `DataExtractorCSVBackend::loadData` on an already-decoded grid:
requires at least `numHeaderRows + 1` rows, then processes the two header
rows and the data rows. -/
def loadData (contents : List (List String)) (interpolatedArrayGroup : String) :
    Except CsvError DataExtractorInput :=
  match contents with
  | nameHeader :: typeHeader :: dataRows =>
    if dataRows.isEmpty then .error .insufficientData
    else loadDataRows nameHeader typeHeader dataRows interpolatedArrayGroup
  | _ => .error .insufficientData

/-! ### Derived notions used to state the claims -/

/-- Data rows that are not skipped as blank lines. -/
def nonBlank (rows : List (List String)) : List (List String) :=
  rows.filter (fun r => decide ¬(r = [""]))

/-- Cells of column `j`, one per row. -/
def cellsAt (j : Nat) (rows : List (List String)) : List String :=
  rows.map (fun r => r.getD j "")

/-- Folds `appendValue` over a list of cells, as the data-row loop does to
one fixed column across all rows. -/
def appendCells : List String → Coordinate → Except CsvError Coordinate
  | [], col => .ok col
  | c :: cs, col =>
    match appendValue c col with
    | .ok col' => appendCells cs col'
    | .error e => .error e

/-- Decoded value of one cell of an integer-tagged column: the missing-value
sentinel for the placeholder, otherwise the parsed (and truncated) integer. -/
def decodeIntCell (cell : String) : Option Int :=
  if cell = missingValuePlaceholder then some missingInt
  else (parseIntLit cell).map toInt32

/-- Decoded value of one cell of a float-tagged column. -/
def decodeFloatCell (cell : String) : Option Q :=
  if cell = missingValuePlaceholder then some missingFloat
  else parseFloatLit cell

/-- Decoded value of one cell of a text-tagged column. -/
def decodeTextCell (cell : String) : String :=
  if cell = missingValuePlaceholder then missingText else cell

/-- Decodes a whole list of cells, failing if any single cell fails. -/
def decodeAll {α : Type} (f : String → Option α) : List String → Option (List α)
  | [] => some []
  | c :: cs =>
    match f c, decodeAll f cs with
    | some v, some vs => some (v :: vs)
    | _, _ => none

/-- Decoded payload value of one cell, given the payload column's type tag:
an integer cell is decoded and then converted to the (float-valued) payload
element type. -/
def decodePayloadValue (tag cell : String) : Option Q :=
  if tag = "int" ∨ tag = "integer" then (decodeIntCell cell).map qOfInt
  else if tag = "float" then decodeFloatCell cell
  else none

/-! ### Lemmas about the cell decoder -/

theorem appendValue_ints (c : String) (vs : List Int) :
    appendValue c (.ints vs) =
      match decodeIntCell c with
      | some v => .ok (.ints (vs ++ [v]))
      | none => .error .malformedNumericLiteral := by
  simp only [appendValue, decodeIntCell]
  by_cases h : c = missingValuePlaceholder
  · simp [h]
  · simp only [h, if_false]
    cases parseIntLit c <;> simp [Option.map]

theorem appendValue_floats (c : String) (vs : List Q) :
    appendValue c (.floats vs) =
      match decodeFloatCell c with
      | some v => .ok (.floats (vs ++ [v]))
      | none => .error .malformedNumericLiteral := by
  by_cases h : c = missingValuePlaceholder <;> simp [appendValue, decodeFloatCell, h]

theorem appendValue_texts (c : String) (vs : List String) :
    appendValue c (.texts vs) = .ok (.texts (vs ++ [decodeTextCell c])) := by
  simp [appendValue, decodeTextCell]

theorem appendValue_ok_length {c : String} {col col' : Coordinate}
    (h : appendValue c col = .ok col') : col'.length = col.length + 1 := by
  cases col with
  | ints vs =>
    rw [appendValue_ints] at h
    cases hd : decodeIntCell c <;> rw [hd] at h
    · exact absurd h (by simp)
    · cases h; simp [Coordinate.length]
  | floats vs =>
    rw [appendValue_floats] at h
    cases hd : decodeFloatCell c <;> rw [hd] at h
    · exact absurd h (by simp)
    · cases h; simp [Coordinate.length]
  | texts vs =>
    rw [appendValue_texts] at h
    cases h; simp [Coordinate.length]

theorem appendCells_ints {cs : List String} {vs : List Int} {col : Coordinate}
    (h : appendCells cs (.ints vs) = .ok col) :
    ∃ ws, decodeAll decodeIntCell cs = some ws ∧ col = .ints (vs ++ ws) := by
  induction cs generalizing vs with
  | nil =>
    cases h
    exact ⟨[], rfl, by simp⟩
  | cons c cs ih =>
    rw [appendCells, appendValue_ints] at h
    cases hd : decodeIntCell c <;> rw [hd] at h
    · exact absurd h (by simp)
    · rename_i v
      obtain ⟨ws, hws, hcol⟩ := ih h
      exact ⟨v :: ws, by simp [decodeAll, hd, hws], by simp [hcol]⟩

theorem appendCells_floats {cs : List String} {vs : List Q} {col : Coordinate}
    (h : appendCells cs (.floats vs) = .ok col) :
    ∃ ws, decodeAll decodeFloatCell cs = some ws ∧ col = .floats (vs ++ ws) := by
  induction cs generalizing vs with
  | nil =>
    cases h
    exact ⟨[], rfl, by simp⟩
  | cons c cs ih =>
    rw [appendCells, appendValue_floats] at h
    cases hd : decodeFloatCell c <;> rw [hd] at h
    · exact absurd h (by simp)
    · rename_i v
      obtain ⟨ws, hws, hcol⟩ := ih h
      exact ⟨v :: ws, by simp [decodeAll, hd, hws], by simp [hcol]⟩

theorem appendCells_texts (cs : List String) (vs : List String) :
    appendCells cs (.texts vs) = .ok (.texts (vs ++ cs.map decodeTextCell)) := by
  induction cs generalizing vs with
  | nil => simp [appendCells]
  | cons c cs ih =>
    rw [appendCells, appendValue_texts]
    simp [ih]

theorem appendCells_ok_length {cs : List String} {col col' : Coordinate}
    (h : appendCells cs col = .ok col') : col'.length = col.length + cs.length := by
  induction cs generalizing col with
  | nil => cases h; simp
  | cons c cs ih =>
    rw [appendCells] at h
    cases ha : appendValue c col <;> rw [ha] at h
    · exact absurd h (by simp)
    · rename_i mid
      have h1 := ih h
      have h2 := appendValue_ok_length ha
      simp only [List.length_cons]
      omega

theorem decodeAll_some_length {α : Type} {f : String → Option α}
    {cs : List String} {vs : List α} (h : decodeAll f cs = some vs) :
    vs.length = cs.length := by
  induction cs generalizing vs with
  | nil => cases h; rfl
  | cons c cs ih =>
    rw [decodeAll] at h
    cases hc : f c <;> rw [hc] at h
    · exact absurd h (by simp)
    · cases hd : decodeAll f cs <;> rw [hd] at h
      · exact absurd h (by simp)
      · cases h; simp [ih hd]

theorem decodeAll_some_getD {α : Type} {f : String → Option α} (d : α)
    {cs : List String} {vs : List α} (h : decodeAll f cs = some vs)
    (i : Nat) (hi : i < cs.length) :
    f (cs.getD i "") = some (vs.getD i d) := by
  induction cs generalizing vs i with
  | nil => exact absurd hi (by simp)
  | cons c cs ih =>
    rw [decodeAll] at h
    cases hc : f c <;> rw [hc] at h
    · exact absurd h (by simp)
    · cases hd : decodeAll f cs <;> rw [hd] at h
      · exact absurd h (by simp)
      · cases h
        cases i with
        | zero => simpa using hc
        | succ i => exact ih hd i (by simpa using hi)

theorem decodeAll_mem_isSome {α : Type} {f : String → Option α}
    {cs : List String} {vs : List α} (h : decodeAll f cs = some vs)
    {c : String} (hc : c ∈ cs) : (f c).isSome := by
  induction cs generalizing vs with
  | nil => cases hc
  | cons c' cs ih =>
    rw [decodeAll] at h
    cases hc' : f c' <;> rw [hc'] at h
    · exact absurd h (by simp)
    · cases hd : decodeAll f cs <;> rw [hd] at h
      · exact absurd h (by simp)
      · rcases List.mem_cons.mp hc with rfl | hmem
        · simp [hc']
        · exact ih hd hmem

/-! ### Decomposition of the data-row loop into per-column folds -/

theorem appendRow_ok_decompose {row : List String} {cols cols' : List Coordinate}
    (h : appendRow row cols = .ok cols') (hlen : row.length = cols.length) :
    cols'.length = cols.length ∧
    ∀ j, j < cols.length →
      appendValue (row.getD j "") (cols.getD j (.texts [])) =
        .ok (cols'.getD j (.texts [])) := by
  induction row generalizing cols cols' with
  | nil =>
    cases cols with
    | nil => cases h; exact ⟨rfl, fun j hj => absurd hj (by simp)⟩
    | cons c cs => exact absurd hlen (by simp)
  | cons cell cells ih =>
    cases cols with
    | nil => exact absurd hlen (by simp)
    | cons col colsTail =>
      rw [appendRow] at h
      cases ha : appendValue cell col <;> rw [ha] at h
      · exact absurd h (by simp)
      · rename_i col1
        cases hr : appendRow cells colsTail <;> rw [hr] at h
        · exact absurd h (by simp)
        · rename_i tail'
          cases h
          obtain ⟨hl, hg⟩ := ih hr (by simpa using hlen)
          refine ⟨by simp [hl], fun j hj => ?_⟩
          cases j with
          | zero => simpa using ha
          | succ j => simpa using hg j (by simpa using hj)

theorem processRows_ok_decompose {n : Nat} {rows : List (List String)} {line : Nat}
    {cols cols' : List Coordinate}
    (h : processRows n line rows cols = .ok cols') (hn : cols.length = n) :
    cols'.length = n ∧
    (∀ r ∈ nonBlank rows, r.length = n) ∧
    ∀ j, j < n →
      appendCells (cellsAt j (nonBlank rows)) (cols.getD j (.texts [])) =
        .ok (cols'.getD j (.texts [])) := by
  induction rows generalizing line cols with
  | nil =>
    cases h
    exact ⟨hn, by simp [nonBlank], fun j hj => by simp [nonBlank, cellsAt, appendCells]⟩
  | cons row rest ih =>
    rw [processRows] at h
    by_cases hb : row = [""]
    · rw [if_pos hb] at h
      obtain ⟨h1, h2, h3⟩ := ih h hn
      have hnb : nonBlank (row :: rest) = nonBlank rest := by simp [nonBlank, hb]
      exact ⟨h1, by rw [hnb]; exact h2, fun j hj => by rw [hnb]; exact h3 j hj⟩
    · rw [if_neg hb] at h
      by_cases hlen : row.length = n
      · rw [if_neg (by simp [hlen])] at h
        cases ha : appendRow row cols <;> rw [ha] at h
        · exact absurd h (by simp)
        · rename_i cols1
          obtain ⟨hal, hag⟩ := appendRow_ok_decompose ha (by rw [hlen, hn])
          obtain ⟨h1, h2, h3⟩ := ih h (by rw [hal, hn])
          have hnb : nonBlank (row :: rest) = row :: nonBlank rest := by
            simp [nonBlank, hb]
          refine ⟨h1, ?_, ?_⟩
          · rw [hnb]
            intro r hr
            rcases List.mem_cons.mp hr with rfl | hmem
            · exact hlen
            · exact h2 r hmem
          · intro j hj
            rw [hnb]
            have hcells : cellsAt j (row :: nonBlank rest) =
                row.getD j "" :: cellsAt j (nonBlank rest) := rfl
            rw [hcells, appendCells, hag j (by omega)]
            exact h3 j hj
      · rw [if_pos hlen] at h
        exact absurd h (by simp)

theorem processRows_ok_congrLine {n : Nat} {rows : List (List String)}
    {line line' : Nat} {cols cols' : List Coordinate}
    (h : processRows n line rows cols = .ok cols') :
    processRows n line' rows cols = .ok cols' := by
  induction rows generalizing line line' cols with
  | nil => exact h
  | cons row rest ih =>
    rw [processRows] at h ⊢
    by_cases hb : row = [""]
    · rw [if_pos hb] at h ⊢
      exact ih h
    · rw [if_neg hb] at h ⊢
      by_cases hlen : row.length = n
      · rw [if_neg (by simp [hlen])] at h ⊢
        cases ha : appendRow row cols <;> rw [ha] at h
        · exact absurd h (by simp)
        · exact ih h
      · rw [if_pos hlen] at h
        exact absurd h (by simp)

theorem processRows_ok_insertBlank {n : Nat} {pre post : List (List String)}
    {line : Nat} {cols cols' : List Coordinate}
    (h : processRows n line (pre ++ post) cols = .ok cols') :
    processRows n line (pre ++ [""] :: post) cols = .ok cols' := by
  induction pre generalizing line cols with
  | nil =>
    rw [List.nil_append, processRows, if_pos rfl]
    exact processRows_ok_congrLine (by simpa using h)
  | cons row pre ih =>
    rw [List.cons_append] at h ⊢
    rw [processRows] at h ⊢
    by_cases hb : row = [""]
    · rw [if_pos hb] at h ⊢
      exact ih h
    · rw [if_neg hb] at h ⊢
      by_cases hlen : row.length = n
      · rw [if_neg (by simp [hlen])] at h ⊢
        cases ha : appendRow row cols <;> rw [ha] at h
        · exact absurd h (by simp)
        · exact ih h
      · rw [if_pos hlen] at h
        exact absurd h (by simp)

/-! ### Lemmas about column allocation -/

theorem allocateColumn_ok_empty {t : String} {b : Bool} {c : Coordinate}
    (h : allocateColumn t b = .ok c) : c.length = 0 := by
  simp only [allocateColumn] at h
  split_ifs at h <;> cases h <;> simp [Coordinate.length]

theorem allocateColumn_payload_text {t : String} (ht : t = "string" ∨ t = "datetime") :
    allocateColumn t true = .error .payloadMustBeNumeric := by
  simp [allocateColumn, ht]

theorem allocateColumn_payload_ok {t : String} {c : Coordinate}
    (h : allocateColumn t true = .ok c) :
    ((t = "int" ∨ t = "integer") ∧ c = .ints []) ∨ (t = "float" ∧ c = .floats []) := by
  by_cases h1 : t = "string" ∨ t = "datetime"
  · rw [allocateColumn_payload_text h1] at h
    exact absurd h (by simp)
  · rw [allocateColumn, if_neg h1] at h
    by_cases h2 : t = "int" ∨ t = "integer"
    · rw [if_pos h2] at h
      refine Or.inl ⟨h2, ?_⟩
      injection h with h
      exact h.symm
    · rw [if_neg h2] at h
      by_cases h3 : t = "float"
      · rw [if_pos h3] at h
        refine Or.inr ⟨h3, ?_⟩
        injection h with h
        exact h.symm
      · rw [if_neg h3] at h
        exact absurd h (by simp)

theorem allocateColumn_coord_ok {t : String}
    (hsup : t = "string" ∨ t = "datetime" ∨ t = "int" ∨ t = "integer" ∨ t = "float") :
    ∃ c, allocateColumn t false = .ok c := by
  rcases hsup with rfl | rfl | rfl | rfl | rfl <;> exact ⟨_, rfl⟩

theorem allocateColumns_ok_decompose {th : List String} {pidx k : Nat}
    {cols : List Coordinate} (h : allocateColumns pidx k th = .ok cols) :
    cols.length = th.length ∧
    ∀ j, j < th.length →
      allocateColumn (th.getD j "") (decide (k + j = pidx)) =
        .ok (cols.getD j (.texts [])) := by
  induction th generalizing k cols with
  | nil =>
    cases h
    exact ⟨rfl, fun j hj => absurd hj (by simp)⟩
  | cons t ts ih =>
    rw [allocateColumns] at h
    cases ha : allocateColumn t (decide (k = pidx)) <;> rw [ha] at h
    · exact absurd h (by simp)
    · rename_i c
      cases hr : allocateColumns pidx (k + 1) ts <;> rw [hr] at h
      · exact absurd h (by simp)
      · rename_i cs
        cases h
        obtain ⟨hl, hg⟩ := ih hr
        refine ⟨by simp [hl], fun j hj => ?_⟩
        cases j with
        | zero => simpa using ha
        | succ j =>
          have harith : k + (j + 1) = (k + 1) + j := by omega
          rw [harith]
          simpa using hg j (by simpa using hj)

theorem allocateColumns_payload_text_err {th : List String} {pidx k : Nat}
    (hk : k ≤ pidx) (hlt : pidx - k < th.length)
    (htag : th.getD (pidx - k) "" = "string" ∨ th.getD (pidx - k) "" = "datetime")
    (hpre : ∀ j, j < th.length → k + j < pidx →
      th.getD j "" = "string" ∨ th.getD j "" = "datetime" ∨ th.getD j "" = "int" ∨
      th.getD j "" = "integer" ∨ th.getD j "" = "float") :
    allocateColumns pidx k th = .error .payloadMustBeNumeric := by
  induction th generalizing k with
  | nil => exact absurd hlt (by simp)
  | cons t ts ih =>
    rw [allocateColumns]
    by_cases hkp : k = pidx
    · have h0 : pidx - k = 0 := by omega
      have ht : t = "string" ∨ t = "datetime" := by
        rw [h0] at htag
        simpa using htag
      have hdec : decide (k = pidx) = true := by simp [hkp]
      rw [hdec, allocateColumn_payload_text ht]
    · have hklt : k < pidx := lt_of_le_of_ne hk hkp
      have ht : t = "string" ∨ t = "datetime" ∨ t = "int" ∨ t = "integer" ∨ t = "float" := by
        simpa using hpre 0 (by simp) (by omega)
      have hdec : decide (k = pidx) = false := by simp [hkp]
      obtain ⟨c, hc⟩ := allocateColumn_coord_ok ht
      rw [hdec, hc]
      have hsub : pidx - (k + 1) + 1 = pidx - k := by omega
      have hlt' : pidx - (k + 1) < ts.length := by
        simp only [List.length_cons] at hlt
        omega
      have htag' : ts.getD (pidx - (k + 1)) "" = "string" ∨
          ts.getD (pidx - (k + 1)) "" = "datetime" := by
        rw [← hsub] at htag
        exact htag
      have hpre' : ∀ j, j < ts.length → (k + 1) + j < pidx →
          ts.getD j "" = "string" ∨ ts.getD j "" = "datetime" ∨ ts.getD j "" = "int" ∨
          ts.getD j "" = "integer" ∨ ts.getD j "" = "float" := by
        intro j hj hjp
        exact hpre (j + 1) (by simpa using hj) (by omega)
      rw [ih (by omega) hlt' htag' hpre']

/-! ### Small indexing helpers -/

theorem getD_mem_of_lt {α : Type} {l : List α} {i : Nat} (h : i < l.length) (d : α) :
    l.getD i d ∈ l := by
  induction l generalizing i with
  | nil => exact absurd h (by simp)
  | cons a as ih =>
    cases i with
    | zero => simp
    | succ i => exact List.mem_cons_of_mem a (ih (by simpa using h))

theorem getD_map_of_lt {α β : Type} (f : α → β) {l : List α} {i : Nat}
    (h : i < l.length) (d : β) (d₀ : α) :
    (l.map f).getD i d = f (l.getD i d₀) := by
  induction l generalizing i with
  | nil => exact absurd h (by simp)
  | cons a as ih =>
    cases i with
    | zero => rfl
    | succ i => exact ih (by simpa using h)

theorem getD_eq_getElem {α : Type} {l : List α} {i : Nat} (h : i < l.length) (d : α) :
    l.getD i d = l[i] := by
  induction l generalizing i with
  | nil => exact absurd h (by simp)
  | cons a as ih =>
    cases i with
    | zero => rfl
    | succ i => exact ih (by simpa using h)

/-! ### Lemmas about result assembly -/

theorem insertAssoc_mem {α : Type} {key : String} {value : α} {l : List (String × α)}
    {kv : String × α} (h : kv ∈ insertAssoc key value l) :
    kv = (key, value) ∨ kv ∈ l := by
  induction l with
  | nil => simpa [insertAssoc] using h
  | cons p rest ih =>
    rw [insertAssoc] at h
    by_cases hk : p.1 = key
    · rw [if_pos hk] at h
      rcases List.mem_cons.mp h with rfl | hmem
      · exact Or.inl rfl
      · exact Or.inr (List.mem_cons_of_mem p hmem)
    · rw [if_neg hk] at h
      rcases List.mem_cons.mp h with rfl | hmem
      · exact Or.inr (List.mem_cons_self p rest)
      · rcases ih hmem with hl | hr
        · exact Or.inl hl
        · exact Or.inr (List.mem_cons_of_mem p hr)

theorem buildResult_payload_high {names : List String} {cols : List Coordinate}
    {pidx : Nat} :
    ∀ {idx : Nat} {acc out : DataExtractorInput},
    buildResult pidx idx names cols acc = .ok out → pidx < idx →
    out.payloadArray = acc.payloadArray := by
  induction names generalizing cols with
  | nil => intro idx acc out h _; cases h; rfl
  | cons name names ih =>
    intro idx acc out h hlt
    cases cols with
    | nil => cases h; rfl
    | cons col cols =>
      have hip : ¬(idx = pidx) := by omega
      rw [buildResult, if_neg hip] at h
      have hlt' : pidx < idx + 1 := by omega
      have hres := ih h hlt'
      exact hres

theorem buildResult_payload_at {names : List String} {cols : List Coordinate}
    {pidx : Nat} :
    ∀ {idx : Nat} {acc out : DataExtractorInput},
    buildResult pidx idx names cols acc = .ok out →
    idx ≤ pidx → pidx - idx < cols.length → pidx - idx < names.length →
    ∃ arr, convertToEigenArray (cols.getD (pidx - idx) (.texts [])) = .ok arr ∧
      out.payloadArray = arr := by
  induction names generalizing cols with
  | nil => intro idx acc out _ _ _ hn; exact absurd hn (by simp)
  | cons name names ih =>
    intro idx acc out h hle hltc hltn
    cases cols with
    | nil => exact absurd hltc (by simp)
    | cons col cols =>
      by_cases hip : idx = pidx
      · have h0 : pidx - idx = 0 := by omega
        rw [buildResult, if_pos hip] at h
        cases hc : convertToEigenArray col <;> rw [hc] at h
        · exact absurd h (by simp)
        · rename_i arr
          refine ⟨arr, by rw [h0]; simpa using hc, ?_⟩
          exact buildResult_payload_high h (by omega)
      · have hlt2 : idx < pidx := lt_of_le_of_ne hle hip
        have hm : pidx - idx = (pidx - (idx + 1)) + 1 := by omega
        rw [buildResult, if_neg hip] at h
        obtain ⟨arr, harr, hout⟩ :=
          ih h (by omega) (by simp at hltc; omega) (by simp at hltn; omega)
        exact ⟨arr, by rw [hm]; simpa using harr, hout⟩

theorem buildResult_coordsVals_pred {P : String × Coordinate → Prop}
    {names : List String} {cols : List Coordinate} {pidx : Nat} :
    ∀ {idx : Nat} {acc out : DataExtractorInput},
    buildResult pidx idx names cols acc = .ok out →
    (∀ kv ∈ acc.coordsVals, P kv) →
    (∀ i, i < names.length → i < cols.length → ¬(idx + i = pidx) →
      P (names.getD i "", cols.getD i (.texts []))) →
    ∀ kv ∈ out.coordsVals, P kv := by
  induction names generalizing cols with
  | nil =>
    intro idx acc out h hacc _
    cases h
    exact hacc
  | cons name names ih =>
    intro idx acc out h hacc hins
    cases cols with
    | nil => cases h; exact hacc
    | cons col cols =>
      have hins' : ∀ i, i < names.length → i < cols.length → ¬((idx + 1) + i = pidx) →
          P (names.getD i "", cols.getD i (.texts [])) := by
        intro i hi hic hne
        have harith : (idx + 1) + i = idx + (i + 1) := by omega
        rw [harith] at hne
        exact hins (i + 1) (by simpa using hi) (by simpa using hic) hne
      by_cases hip : idx = pidx
      · rw [buildResult, if_pos hip] at h
        cases hc : convertToEigenArray col <;> rw [hc] at h
        · exact absurd h (by simp)
        · exact ih h hacc hins'
      · rw [buildResult, if_neg hip] at h
        refine ih h ?_ hins'
        intro kv hkv
        rcases insertAssoc_mem hkv with rfl | hmem
        · exact hins 0 (by simp) (by simp) (by simpa using hip)
        · exact hacc kv hmem

theorem findPayloadColumnFrom_none {g : String} {names : List String} :
    ∀ {k : Nat}, (∀ n ∈ names, isInPayloadGroup g n = false) →
    findPayloadColumnFrom g k names = .error .noPayloadColumnFound := by
  induction names with
  | nil => intro k _; rfl
  | cons name rest ih =>
    intro k hall
    rw [findPayloadColumnFrom, if_neg (by simp [hall name (by simp)])]
    exact ih fun n hn => hall n (List.mem_cons_of_mem name hn)

theorem findPayloadColumnFrom_unique {g : String} {names : List String} :
    ∀ {k i : Nat}, i < names.length →
    isInPayloadGroup g (names.getD i "") = true →
    (∀ j, j < names.length → j ≠ i → isInPayloadGroup g (names.getD j "") = false) →
    findPayloadColumnFrom g k names = .ok (k + i) := by
  induction names with
  | nil => intro k i hi _ _; exact absurd hi (by simp)
  | cons name rest ih =>
    intro k i hi hm huniq
    cases i with
    | zero =>
      rw [findPayloadColumnFrom, if_pos (by simpa using hm)]
      have hany : rest.any (fun n => isInPayloadGroup g n) = false := by
        rw [List.any_eq_false]
        intro n hn
        obtain ⟨j, hj, rfl⟩ := List.mem_iff_getElem.mp hn
        have hfalse : isInPayloadGroup g (rest.getD j "") = false :=
          huniq (j + 1) (by simpa using hj) (by simp)
        rw [getD_eq_getElem hj ""] at hfalse
        simp [hfalse]
      rw [hany]
      simp
    | succ i =>
      have hm0 : isInPayloadGroup g name = false := by
        simpa using huniq 0 (by simp) (by simp)
      rw [findPayloadColumnFrom, if_neg (by simp [hm0])]
      have := ih (k := k + 1) (i := i) (by simpa using hi) (by simpa using hm)
        (fun j hj hne => by
          simpa using huniq (j + 1) (by simpa using hj) (by simpa using hne))
      rw [this]
      have harith : k + 1 + i = k + (i + 1) := by omega
      rw [harith]

theorem findPayloadColumnFrom_ambiguous {g : String} {names : List String} :
    ∀ {k i j : Nat}, i < j → j < names.length →
    isInPayloadGroup g (names.getD i "") = true →
    isInPayloadGroup g (names.getD j "") = true →
    findPayloadColumnFrom g k names = .error .ambiguousPayloadColumn := by
  induction names with
  | nil => intro k i j _ hj _ _; exact absurd hj (by simp)
  | cons name rest ih =>
    intro k i j hij hj hmi hmj
    have hanyj : ∀ m, m + 1 < (name :: rest).length →
        isInPayloadGroup g ((name :: rest).getD (m + 1) "") = true →
        rest.any (fun n => isInPayloadGroup g n) = true := by
      intro m hm hmm
      rw [List.any_eq_true]
      refine ⟨rest.getD m "", getD_mem_of_lt (by simpa using hm) "", ?_⟩
      simpa using hmm
    cases i with
    | zero =>
      rw [findPayloadColumnFrom, if_pos (by simpa using hmi)]
      obtain ⟨j', rfl⟩ : ∃ j', j = j' + 1 := ⟨j - 1, by omega⟩
      rw [hanyj j' hj hmj]
      simp
    | succ i =>
      obtain ⟨j', rfl⟩ : ∃ j', j = j' + 1 := ⟨j - 1, by omega⟩
      by_cases hm0 : isInPayloadGroup g name = true
      · rw [findPayloadColumnFrom, if_pos hm0, hanyj j' hj hmj]
        simp
      · rw [findPayloadColumnFrom, if_neg (by simpa using hm0)]
        exact ih (i := i) (j := j') (by omega) (by simpa using hj) (by simpa using hmi)
          (by simpa using hmj)

theorem findPayloadColumnFrom_ok_inv {g : String} {names : List String} :
    ∀ {k i : Nat}, findPayloadColumnFrom g k names = .ok i →
    k ≤ i ∧ i - k < names.length ∧
    isInPayloadGroup g (names.getD (i - k) "") = true ∧
    ∀ j, j < names.length → j ≠ i - k → isInPayloadGroup g (names.getD j "") = false := by
  induction names with
  | nil => intro k i h; exact absurd h (by simp [findPayloadColumnFrom])
  | cons name rest ih =>
    intro k i h
    rw [findPayloadColumnFrom] at h
    by_cases hm : isInPayloadGroup g name = true
    · rw [if_pos hm] at h
      cases hany : rest.any (fun n => isInPayloadGroup g n) <;> rw [hany] at h
      · injection h with h
        subst h
        have hik : k - k = 0 := by omega
        refine ⟨le_refl k, by simp, by simpa [hik] using hm, ?_⟩
        intro j hj hne
        rw [hik] at hne
        obtain ⟨j', rfl⟩ : ∃ j', j = j' + 1 := ⟨j - 1, by omega⟩
        have hall := List.any_eq_false.mp hany
        simpa using hall (rest.getD j' "") (getD_mem_of_lt (by simpa using hj) "")
      · exact absurd h (by simp)
    · rw [if_neg hm] at h
      obtain ⟨hk, hlt, hmatch, huniq⟩ := ih h
      have hik : i - k = (i - (k + 1)) + 1 := by omega
      refine ⟨by omega, by simp only [List.length_cons]; omega, by simpa [hik] using hmatch, ?_⟩
      intro j hj hne
      cases j with
      | zero => simpa using hm
      | succ j' =>
        rw [hik] at hne
        simpa using huniq j' (by simpa using hj) (by simpa using hne)

theorem findPayloadColumn_ok_inv {g : String} {names : List String} {i : Nat}
    (h : findPayloadColumn names g = .ok i) :
    i < names.length ∧ isInPayloadGroup g (names.getD i "") = true ∧
    ∀ j, j < names.length → j ≠ i → isInPayloadGroup g (names.getD j "") = false := by
  obtain ⟨_, hlt, hm, huniq⟩ := findPayloadColumnFrom_ok_inv h
  rw [Nat.sub_zero] at hlt hm huniq
  exact ⟨hlt, hm, huniq⟩

/-! ### Inversion of a successful load -/

theorem loadData_cons_ok {nh th : List String} {rows : List (List String)}
    {g : String} {result : DataExtractorInput}
    (h : loadData (nh :: th :: rows) g = .ok result) :
    loadDataRows nh th rows g = .ok result ∧ rows ≠ [] := by
  rw [loadData] at h
  by_cases hemp : rows.isEmpty
  · rw [if_pos hemp] at h
    exact absurd h (by simp)
  · rw [if_neg hemp] at h
    exact ⟨h, by simpa using hemp⟩

theorem loadDataRows_ok_inv {nh th : List String} {rows : List (List String)}
    {g : String} {result : DataExtractorInput}
    (h : loadDataRows nh th rows g = .ok result) :
    ∃ pidx cols0 cols,
      findPayloadColumn nh g = .ok pidx ∧
      th.length = nh.length ∧
      allocateColumns pidx 0 th = .ok cols0 ∧
      processRows nh.length (numHeaderRows + 1) rows cols0 = .ok cols ∧
      buildResult pidx 0 (nh.map convertV1PathToV2Path) cols emptyInput = .ok result ∧
      result.payloadArray.length ≠ 0 := by
  simp only [loadDataRows] at h
  split at h
  next e hf => exact absurd h (by simp)
  next pidx hf =>
    split at h
    next hth => exact absurd h (by simp)
    next hth =>
      split at h
      next e halloc => exact absurd h (by simp)
      next cols0 halloc =>
        split at h
        next e hproc => exact absurd h (by simp)
        next cols hproc =>
          split at h
          next e hbuild => exact absurd h (by simp)
          next res0 hbuild =>
            split at h
            next hlen => exact absurd h (by simp)
            next hlen =>
              injection h with h
              subst h
              exact ⟨pidx, cols0, cols, hf, by omega, halloc, hproc, hbuild, hlen⟩

/-! ### Last helper lemmas -/

theorem convertToEigenArray_ok_length {col : Coordinate} {arr : List Q}
    (h : convertToEigenArray col = .ok arr) : arr.length = col.length := by
  cases col with
  | ints vs =>
    injection h with h
    rw [← h, List.length_map]
    rfl
  | floats vs =>
    injection h with h
    rw [← h]
    rfl
  | texts vs => exact absurd h (by simp [convertToEigenArray])

theorem allocateColumn_int_ok {t : String} {b : Bool} {c : Coordinate}
    (ht : t = "int" ∨ t = "integer") (h : allocateColumn t b = .ok c) : c = .ints [] := by
  rcases ht with rfl | rfl <;>
    (rw [allocateColumn, if_neg (by decide), if_pos (by decide)] at h;
      injection h with h; exact h.symm)

theorem allocateColumn_float_ok {t : String} {b : Bool} {c : Coordinate}
    (ht : t = "float") (h : allocateColumn t b = .ok c) : c = .floats [] := by
  subst ht
  rw [allocateColumn, if_neg (by decide), if_neg (by decide), if_pos rfl] at h
  injection h with h
  exact h.symm

/-- Evaluation of the specification's concrete two-data-row file, shared by
the claims that exercise it. -/
theorem loadData_spec_file_eval :
    loadData [["station", "pressure@ErrorInflation"], ["string", "float"],
        ["A", "1.5"], ["B", "2.25"]] "ErrorInflation" =
      .ok ⟨[mkQ 3 2, mkQ 9 4], [("station", .texts ["A", "B"])], [("station", 0)],
        [["station"]]⟩ := rfl

/-- Evaluation of a small file with an int-tagged payload column, shared by
the claims about integer payloads. -/
theorem loadData_int_file_eval :
    loadData [["s", "p@G"], ["string", "int"], ["A", "3"]] "G" =
      .ok ⟨[mkQ 3 1], [("s", .texts ["A"])], [("s", 0)], [["s"]]⟩ := rfl

/-! ### Claim theorems -/

/-- C2: the payload locator matches a name exactly when it begins with the
label followed by `/` or ends with `@` followed by the label; it fails with
`NoPayloadColumnFound` when zero names match, fails with
`AmbiguousPayloadColumn` when two or more names match, and otherwise returns
the index of the single matching name. -/
theorem findPayloadColumn_spec (names : List String) (g : String) :
    (∀ name, isInPayloadGroup g name =
      (beginsWith name (g ++ "/") || endsWith name ("@" ++ g))) ∧
    ((∀ n ∈ names, isInPayloadGroup g n = false) →
      findPayloadColumn names g = .error .noPayloadColumnFound) ∧
    (∀ i j, i < j → j < names.length →
      isInPayloadGroup g (names.getD i "") = true →
      isInPayloadGroup g (names.getD j "") = true →
      findPayloadColumn names g = .error .ambiguousPayloadColumn) ∧
    (∀ i, i < names.length → isInPayloadGroup g (names.getD i "") = true →
      (∀ j, j < names.length → j ≠ i → isInPayloadGroup g (names.getD j "") = false) →
      findPayloadColumn names g = .ok i) := by
  refine ⟨fun name => rfl, ?_, ?_, ?_⟩
  · exact fun hall => findPayloadColumnFrom_none hall
  · exact fun i j hij hj hmi hmj => findPayloadColumnFrom_ambiguous hij hj hmi hmj
  · intro i hi hm huniq
    simpa using findPayloadColumnFrom_unique (k := 0) hi hm huniq

/-- Witness for C2: the locator evaluated on concrete name lists, one per
outcome of the specification. -/
theorem findPayloadColumn_spec_witness :
    findPayloadColumn ["a", "p@G"] "G" = .ok 1 ∧
    findPayloadColumn ["a", "b"] "G" = .error .noPayloadColumnFound ∧
    findPayloadColumn ["G/x", "p@G"] "G" = .error .ambiguousPayloadColumn := by
  refine ⟨?_, ?_, ?_⟩
  · exact (findPayloadColumn_spec ["a", "p@G"] "G").2.2.2 1 (by decide) (by decide)
      (by decide)
  · exact (findPayloadColumn_spec ["a", "b"] "G").2.1 (by decide)
  · exact (findPayloadColumn_spec ["G/x", "p@G"] "G").2.2.1 0 1 (by decide) (by decide)
      (by decide) (by decide)

/-- C3: loading the two-data-row file with header
`station,pressure@ErrorInflation`, type row `string,float` and data rows
`A,1.5` / `B,2.25` under payload-group label `ErrorInflation` succeeds with
payload `[[1.5],[2.25]]`, `coordinateValues["station"] = ["A","B"]`,
`coordinateToDimension["station"] = 0` and
`dimensionToCoordinates[0] = ["station"]`. -/
theorem loadData_concrete_scenario :
    loadData [["station", "pressure@ErrorInflation"], ["string", "float"],
        ["A", "1.5"], ["B", "2.25"]] "ErrorInflation" =
      .ok ⟨[mkQ 3 2, mkQ 9 4], [("station", .texts ["A", "B"])], [("station", 0)],
        [["station"]]⟩ :=
  loadData_spec_file_eval

/-- C5: a cell equal to the reserved placeholder decodes to the type-specific
missing sentinel in integer, float and text columns alike; the placeholder is
never parsed as a number. -/
theorem appendValue_missing_placeholder :
    (∀ vs : List Int, appendValue missingValuePlaceholder (.ints vs) =
      .ok (.ints (vs ++ [missingInt]))) ∧
    (∀ vs : List Q, appendValue missingValuePlaceholder (.floats vs) =
      .ok (.floats (vs ++ [missingFloat]))) ∧
    (∀ vs : List String, appendValue missingValuePlaceholder (.texts vs) =
      .ok (.texts (vs ++ [missingText]))) := by
  refine ⟨fun vs => ?_, fun vs => ?_, fun vs => ?_⟩ <;> simp [appendValue]

/-- Counterexample to C7: a file whose two header rows have mismatched column
counts and in which no column name matches the payload convention fails with
`NoPayloadColumnFound`, not with `HeaderColumnCountMismatch`: the locator
runs before the header-count check. -/
theorem header_mismatch_order_counterexample :
    loadData [["a", "b"], ["x"], ["1", "2"]] "G" = .error .noPayloadColumnFound ∧
    loadData [["a", "b"], ["x"], ["1", "2"]] "G" ≠ .error .headerColumnCountMismatch := by
  have h : loadData [["a", "b"], ["x"], ["1", "2"]] "G" = .error .noPayloadColumnFound := rfl
  exact ⟨h, by rw [h]; simp⟩

/-- C7 (amended): the Payload Column Locator is invoked before the type-row
column-count check; whenever the locator fails with `NoPayloadColumnFound`
(and at least one data row is present), the load fails with
`NoPayloadColumnFound` regardless of the type row's column count. -/
theorem locator_runs_before_header_count_check {nh th : List String}
    {rows : List (List String)} {g : String}
    (hrows : rows ≠ [])
    (hf : findPayloadColumn nh g = .error .noPayloadColumnFound) :
    loadData (nh :: th :: rows) g = .error .noPayloadColumnFound := by
  have hne : ¬(rows.isEmpty = true) := by simp [hrows]
  rw [loadData, if_neg hne]
  simp only [loadDataRows, hf]

/-- Witness for C7's amended theorem: the counterexample file evaluated
through the amended statement. -/
theorem locator_runs_before_header_count_check_witness :
    loadData [["a", "b"], ["x"], ["1", "2"]] "G" = .error .noPayloadColumnFound :=
  locator_runs_before_header_count_check (by decide) rfl

/-- C4: when the payload column's declared type tag is `string` or
`datetime` (and the header rows are otherwise processable), the load fails
with `PayloadMustBeNumeric` at column-allocation time, for every choice of
data rows, malformed or not. -/
theorem payload_text_tag_fails {nh th : List String} {g : String} (pidx : Nat)
    (hf : findPayloadColumn nh g = .ok pidx)
    (hth : th.length = nh.length)
    (htag : th.getD pidx "" = "string" ∨ th.getD pidx "" = "datetime")
    (hpre : ∀ j, j < pidx → th.getD j "" = "string" ∨ th.getD j "" = "datetime" ∨
      th.getD j "" = "int" ∨ th.getD j "" = "integer" ∨ th.getD j "" = "float") :
    ∀ rows : List (List String), rows ≠ [] →
      loadData (nh :: th :: rows) g = .error .payloadMustBeNumeric := by
  intro rows hrows
  have hne : ¬(rows.isEmpty = true) := by simp [hrows]
  rw [loadData, if_neg hne]
  simp only [loadDataRows, hf]
  rw [if_neg (by simp [hth])]
  have hpidx : pidx < nh.length := (findPayloadColumn_ok_inv hf).1
  have herr : allocateColumns pidx 0 th = .error .payloadMustBeNumeric := by
    refine allocateColumns_payload_text_err (Nat.zero_le pidx) ?_ htag ?_
    · rw [Nat.sub_zero, hth]
      exact hpidx
    · intro j hj hjp
      exact hpre j (by omega)
  rw [herr]

/-- Witness for C4: the specification's concrete failure scenario (type row
`string,string`). -/
theorem payload_text_tag_fails_witness :
    loadData [["station", "pressure@ErrorInflation"], ["string", "string"],
        ["A", "1.5"], ["B", "2.25"]] "ErrorInflation" = .error .payloadMustBeNumeric :=
  payload_text_tag_fails 1 (by rfl) (by rfl) (by exact Or.inl rfl) (by decide)
    [["A", "1.5"], ["B", "2.25"]] (by decide)

/-- C8: inserting a row consisting of exactly one empty-string cell at any
position among the data rows of a well-formed file yields a table identical
to that of the file without the inserted row. -/
theorem insert_blank_row_preserves_load (nh th : List String)
    (pre post : List (List String)) (g : String) {result : DataExtractorInput}
    (h : loadData (nh :: th :: (pre ++ post)) g = .ok result) :
    loadData (nh :: th :: (pre ++ [""] :: post)) g = .ok result := by
  obtain ⟨h, hne⟩ := loadData_cons_ok h
  obtain ⟨pidx, cols0, cols, hf, hth, halloc, hproc, hbuild, hlen⟩ := loadDataRows_ok_inv h
  have hne2 : ¬((pre ++ [""] :: post).isEmpty = true) := by cases pre <;> simp
  rw [loadData, if_neg hne2]
  simp only [loadDataRows, hf]
  rw [if_neg (by simp [hth])]
  simp only [halloc, processRows_ok_insertBlank hproc, hbuild]
  rw [if_neg hlen]

/-- Witness for C8: a blank line inserted between the two data rows of the
specification's concrete file leaves the loaded table unchanged. -/
theorem insert_blank_row_preserves_load_witness :
    loadData [["station", "pressure@ErrorInflation"], ["string", "float"],
        ["A", "1.5"], [""], ["B", "2.25"]] "ErrorInflation" =
      .ok ⟨[mkQ 3 2, mkQ 9 4], [("station", .texts ["A", "B"])], [("station", 0)],
        [["station"]]⟩ :=
  insert_blank_row_preserves_load ["station", "pressure@ErrorInflation"]
    ["string", "float"] [["A", "1.5"]] [["B", "2.25"]] "ErrorInflation"
    loadData_spec_file_eval

/-- C1: a successful load of a file with header rows `nh`, `th` and data rows
`rows` yields a payload with exactly one entry per non-blank data row, in row
order, each entry being the decoded value of that row's payload cell; and
every coordinate column has the same number of entries. -/
theorem loadData_row_order {nh th : List String} {rows : List (List String)}
    {g : String} {result : DataExtractorInput}
    (h : loadData (nh :: th :: rows) g = .ok result) :
    ∃ pidx, findPayloadColumn nh g = .ok pidx ∧
      result.payloadArray.length = (nonBlank rows).length ∧
      (∀ kv ∈ result.coordsVals, kv.2.length = (nonBlank rows).length) ∧
      ∀ i, i < (nonBlank rows).length →
        decodePayloadValue (th.getD pidx "") (((nonBlank rows).getD i []).getD pidx "") =
          some (result.payloadArray.getD i (mkQ 0 1)) := by
  obtain ⟨h, hrne⟩ := loadData_cons_ok h
  obtain ⟨pidx, cols0, cols, hf, hth, halloc, hproc, hbuild, hlen⟩ := loadDataRows_ok_inv h
  have hpidx : pidx < nh.length := (findPayloadColumn_ok_inv hf).1
  obtain ⟨hc0len, hcAlloc⟩ := allocateColumns_ok_decompose halloc
  obtain ⟨hclen, hrowlen, hcols⟩ := processRows_ok_decompose hproc (by rw [hc0len, hth])
  have hpth : pidx < th.length := by rw [hth]; exact hpidx
  have halocp := hcAlloc pidx hpth
  have hz : (0 : Nat) + pidx = pidx := Nat.zero_add pidx
  rw [hz] at halocp
  have hdec : decide (pidx = pidx) = true := by simp
  rw [hdec] at halocp
  have hcapp := hcols pidx hpidx
  have hnames : (nh.map convertV1PathToV2Path).length = nh.length := List.length_map nh _
  obtain ⟨arr, hconv, hpay⟩ := buildResult_payload_at hbuild (Nat.zero_le pidx)
    (by rw [Nat.sub_zero, hclen]; exact hpidx) (by rw [Nat.sub_zero, hnames]; exact hpidx)
  rw [Nat.sub_zero] at hconv
  have hcelllen : (cellsAt pidx (nonBlank rows)).length = (nonBlank rows).length :=
    List.length_map _ _
  have hcoordlen : ∀ i, i < nh.length →
      (cols.getD i (.texts [])).length = (nonBlank rows).length := by
    intro i hi
    have happ := hcols i hi
    have h0 : (cols0.getD i (.texts [])).length = 0 :=
      allocateColumn_ok_empty (hcAlloc i (by rw [hth]; exact hi))
    have hlen2 := appendCells_ok_length happ
    rw [h0] at hlen2
    simpa [cellsAt] using hlen2
  refine ⟨pidx, hf, ?_, ?_, ?_⟩
  · rw [hpay, convertToEigenArray_ok_length hconv]
    exact hcoordlen pidx hpidx
  · intro kv hkv
    refine buildResult_coordsVals_pred
      (P := fun kv => kv.2.length = (nonBlank rows).length) hbuild ?_ ?_ kv hkv
    · intro kv2 hkv2
      exact absurd hkv2 (by simp [emptyInput])
    · intro i hi hic hne
      exact hcoordlen i (by rw [← hnames]; exact hi)
  · intro i hi
    rcases allocateColumn_payload_ok halocp with ⟨htag, hcol0⟩ | ⟨htag, hcol0⟩
    · rw [hcol0] at hcapp
      obtain ⟨ws, hws, hcolw⟩ := appendCells_ints hcapp
      rw [hcolw] at hconv
      simp only [convertToEigenArray, List.nil_append] at hconv
      injection hconv with hconv
      rw [decodePayloadValue, if_pos htag]
      have hcd := decodeAll_some_getD (0 : Int) hws i (by rw [hcelllen]; exact hi)
      have hcget : (cellsAt pidx (nonBlank rows)).getD i "" =
          ((nonBlank rows).getD i []).getD pidx "" :=
        getD_map_of_lt _ hi "" []
      rw [hcget] at hcd
      rw [hcd, hpay, ← hconv]
      have hwslen : ws.length = (nonBlank rows).length := by
        rw [decodeAll_some_length hws, hcelllen]
      rw [getD_map_of_lt qOfInt (by rw [hwslen]; exact hi) (mkQ 0 1) 0]
      rfl
    · rw [hcol0] at hcapp
      obtain ⟨ws, hws, hcolw⟩ := appendCells_floats hcapp
      rw [hcolw] at hconv
      simp only [convertToEigenArray, List.nil_append] at hconv
      injection hconv with hconv
      rw [decodePayloadValue, if_neg (by rw [htag]; decide), if_pos htag]
      have hcd := decodeAll_some_getD (mkQ 0 1) hws i (by rw [hcelllen]; exact hi)
      have hcget : (cellsAt pidx (nonBlank rows)).getD i "" =
          ((nonBlank rows).getD i []).getD pidx "" :=
        getD_map_of_lt _ hi "" []
      rw [hcget] at hcd
      rw [hcd, hpay, ← hconv]

/-- Witness for C1: the specification's concrete file evaluated through the
row-order theorem. -/
theorem loadData_row_order_witness :
    ∃ pidx, findPayloadColumn ["station", "pressure@ErrorInflation"] "ErrorInflation" =
        .ok pidx ∧
      ([mkQ 3 2, mkQ 9 4] : List Q).length =
        (nonBlank [["A", "1.5"], ["B", "2.25"]]).length ∧
      (∀ kv ∈ [("station", Coordinate.texts ["A", "B"])],
        kv.2.length = (nonBlank [["A", "1.5"], ["B", "2.25"]]).length) ∧
      ∀ i, i < (nonBlank [["A", "1.5"], ["B", "2.25"]]).length →
        decodePayloadValue (["string", "float"].getD pidx "")
            (((nonBlank [["A", "1.5"], ["B", "2.25"]]).getD i []).getD pidx "") =
          some (([mkQ 3 2, mkQ 9 4] : List Q).getD i (mkQ 0 1)) :=
  loadData_row_order loadData_spec_file_eval

/-- C6 (parts): a numeric-tagged cell that is not the placeholder and does
not parse fails the decoder with `MalformedNumericLiteral` (never a silent
coercion), and consequently every cell of a numeric-tagged column of a
successfully loaded file is either the placeholder or parseable. -/
theorem malformed_numeric_rejected :
    (∀ (cell : String) (vs : List Int), cell ≠ missingValuePlaceholder →
      parseIntLit cell = none →
      appendValue cell (.ints vs) = .error .malformedNumericLiteral) ∧
    (∀ (cell : String) (vs : List Q), cell ≠ missingValuePlaceholder →
      parseFloatLit cell = none →
      appendValue cell (.floats vs) = .error .malformedNumericLiteral) ∧
    (∀ (nh th : List String) (rows : List (List String)) (g : String)
      (result : DataExtractorInput) (j : Nat),
      loadData (nh :: th :: rows) g = .ok result →
      j < nh.length →
      (th.getD j "" = "int" ∨ th.getD j "" = "integer") →
      ∀ row ∈ nonBlank rows,
        row.getD j "" = missingValuePlaceholder ∨ parseIntLit (row.getD j "") ≠ none) ∧
    (∀ (nh th : List String) (rows : List (List String)) (g : String)
      (result : DataExtractorInput) (j : Nat),
      loadData (nh :: th :: rows) g = .ok result →
      j < nh.length →
      th.getD j "" = "float" →
      ∀ row ∈ nonBlank rows,
        row.getD j "" = missingValuePlaceholder ∨ parseFloatLit (row.getD j "") ≠ none) := by
  refine ⟨?_, ?_, ?_, ?_⟩
  · intro cell vs hne hp
    simp [appendValue_ints, decodeIntCell, hne, hp]
  · intro cell vs hne hp
    simp [appendValue_floats, decodeFloatCell, hne, hp]
  · intro nh th rows g result j h hj htag row hrow
    obtain ⟨h, hrne⟩ := loadData_cons_ok h
    obtain ⟨pidx, cols0, cols, hf, hth, halloc, hproc, hbuild, hlen⟩ := loadDataRows_ok_inv h
    obtain ⟨hc0len, hcAlloc⟩ := allocateColumns_ok_decompose halloc
    obtain ⟨hclen, hrowlen, hcols⟩ := processRows_ok_decompose hproc (by rw [hc0len, hth])
    have hjth : j < th.length := by rw [hth]; exact hj
    have hcol0 : cols0.getD j (.texts []) = .ints [] :=
      allocateColumn_int_ok htag (hcAlloc j hjth)
    have hcapp := hcols j hj
    rw [hcol0] at hcapp
    obtain ⟨ws, hws, _⟩ := appendCells_ints hcapp
    have hmem : row.getD j "" ∈ cellsAt j (nonBlank rows) :=
      List.mem_map_of_mem _ hrow
    have hsome := decodeAll_mem_isSome hws hmem
    rw [decodeIntCell] at hsome
    by_cases hph : row.getD j "" = missingValuePlaceholder
    · exact Or.inl hph
    · refine Or.inr ?_
      rw [if_neg hph] at hsome
      intro hnone
      rw [hnone] at hsome
      simp at hsome
  · intro nh th rows g result j h hj htag row hrow
    obtain ⟨h, hrne⟩ := loadData_cons_ok h
    obtain ⟨pidx, cols0, cols, hf, hth, halloc, hproc, hbuild, hlen⟩ := loadDataRows_ok_inv h
    obtain ⟨hc0len, hcAlloc⟩ := allocateColumns_ok_decompose halloc
    obtain ⟨hclen, hrowlen, hcols⟩ := processRows_ok_decompose hproc (by rw [hc0len, hth])
    have hjth : j < th.length := by rw [hth]; exact hj
    have hcol0 : cols0.getD j (.texts []) = .floats [] :=
      allocateColumn_float_ok htag (hcAlloc j hjth)
    have hcapp := hcols j hj
    rw [hcol0] at hcapp
    obtain ⟨ws, hws, _⟩ := appendCells_floats hcapp
    have hmem : row.getD j "" ∈ cellsAt j (nonBlank rows) :=
      List.mem_map_of_mem _ hrow
    have hsome := decodeAll_mem_isSome hws hmem
    rw [decodeFloatCell] at hsome
    by_cases hph : row.getD j "" = missingValuePlaceholder
    · exact Or.inl hph
    · refine Or.inr ?_
      rw [if_neg hph] at hsome
      intro hnone
      rw [hnone] at hsome
      simp at hsome

/-- Witness for C6: the unparseable cell `abc` rejected in an integer and a
float column, and a parseable cell of a loaded file's integer column. -/
theorem malformed_numeric_rejected_witness :
    appendValue "abc" (.ints []) = .error .malformedNumericLiteral ∧
    appendValue "abc" (.floats []) = .error .malformedNumericLiteral ∧
    (["A", "3"].getD 1 "" = missingValuePlaceholder ∨
      parseIntLit (["A", "3"].getD 1 "") ≠ none) := by
  refine ⟨?_, ?_, ?_⟩
  · exact malformed_numeric_rejected.1 "abc" [] (by decide) rfl
  · exact malformed_numeric_rejected.2.1 "abc" [] (by decide) rfl
  · exact malformed_numeric_rejected.2.2.1 ["s", "p@G"] ["string", "int"]
      [["A", "3"]] "G" ⟨[mkQ 3 1], [("s", .texts ["A"])], [("s", 0)], [["s"]]⟩ 1
      loadData_int_file_eval (by decide) (Or.inl rfl) ["A", "3"] (by decide)

/-- C10: the dense payload array is always float-valued: the conversion
visitor maps an integer column element-wise into the float-valued array, so
an int-tagged payload column yields a float-valued payload. -/
theorem payload_always_float_valued :
    (∀ vs : List Int, convertToEigenArray (.ints vs) = .ok (vs.map qOfInt)) ∧
    ∀ (nh th : List String) (rows : List (List String)) (g : String)
      (result : DataExtractorInput) (pidx : Nat),
      loadData (nh :: th :: rows) g = .ok result →
      findPayloadColumn nh g = .ok pidx →
      (th.getD pidx "" = "int" ∨ th.getD pidx "" = "integer") →
      ∃ ivs : List Int, result.payloadArray = ivs.map qOfInt := by
  refine ⟨fun vs => rfl, ?_⟩
  intro nh th rows g result pidx h hf htag
  obtain ⟨h, hrne⟩ := loadData_cons_ok h
  obtain ⟨pidx', cols0, cols, hf', hth, halloc, hproc, hbuild, hlen⟩ := loadDataRows_ok_inv h
  rw [hf] at hf'
  injection hf' with hf'
  subst hf'
  have hpidx : pidx < nh.length := (findPayloadColumn_ok_inv hf).1
  obtain ⟨hc0len, hcAlloc⟩ := allocateColumns_ok_decompose halloc
  obtain ⟨hclen, _, hcols⟩ := processRows_ok_decompose hproc (by rw [hc0len, hth])
  have hjth : pidx < th.length := by rw [hth]; exact hpidx
  have hcol0 : cols0.getD pidx (.texts []) = .ints [] :=
    allocateColumn_int_ok htag (hcAlloc pidx hjth)
  have hcapp := hcols pidx hpidx
  rw [hcol0] at hcapp
  obtain ⟨ws, hws, hcolw⟩ := appendCells_ints hcapp
  have hnames : (nh.map convertV1PathToV2Path).length = nh.length := List.length_map nh _
  obtain ⟨arr, hconv, hpay⟩ := buildResult_payload_at hbuild (Nat.zero_le pidx)
    (by rw [Nat.sub_zero, hclen]; exact hpidx) (by rw [Nat.sub_zero, hnames]; exact hpidx)
  rw [Nat.sub_zero] at hconv
  rw [hcolw] at hconv
  simp only [convertToEigenArray, List.nil_append] at hconv
  injection hconv with hconv
  exact ⟨ws, by rw [hpay, ← hconv]⟩

/-- Witness for C10: a file whose int-tagged payload column loads into a
float-valued payload array. -/
theorem payload_always_float_valued_witness :
    ∃ ivs : List Int,
      ([mkQ 3 1] : List Q) = ivs.map qOfInt :=
  payload_always_float_valued.2 ["s", "p@G"] ["string", "int"] [["A", "3"]] "G"
    ⟨[mkQ 3 1], [("s", .texts ["A"])], [("s", 0)], [["s"]]⟩ 1
    loadData_int_file_eval rfl (Or.inl rfl)

end UfoCsv
